import Mathlib

/-!
Verification of the srv reconciliation control plane.

Strings are modelled as lists of characters (`Str`); Go's byte-wise
string comparison agrees with code-point lexicographic order because
UTF-8 is order-preserving.  File contents are `Str`; an absent file is
`none : Option Str`.  Side effects (saving the registry, regenerating
dnsmasq, engaging or disengaging the system resolver, attaching a
container to a network) are recorded as explicit event lists.
-/

namespace Srv

abbrev Str := List Char

def str (s : String) : Str := s.toList

/-! ### Character classes and trimming (Go strings.TrimSpace / unicode.IsSpace) -/

/-- The Unicode White_Space characters, as recognised by Go's unicode.IsSpace. -/
def isSpaceCh (c : Char) : Bool :=
  decide (c ∈ ['\t', '\n', '\x0B', '\x0C', '\r', ' ', '\x85', '\xA0',
    ' ', ' ', ' ', ' ', ' ', ' ', ' ',
    ' ', ' ', ' ', ' ', ' ', ' ', ' ',
    ' ', ' ', '　'])

/-- Trim trailing white space (the right half of Go strings.TrimSpace). -/
def trimRightCh (l : Str) : Str := (l.reverse.dropWhile isSpaceCh).reverse

/-- Trim leading white space (the left half of Go strings.TrimSpace). -/
def trimLeftCh (l : Str) : Str := l.dropWhile isSpaceCh

/-- Go strings.TrimSpace: white space removed from both ends. -/
def trimSpace (l : Str) : Str := trimLeftCh (trimRightCh l)

/-- bufio.ScanLines drops one trailing carriage return from each line. -/
def dropCR (l : Str) : Str :=
  match l.reverse with
  | '\r' :: rest => rest.reverse
  | _ => l

/-! ### Newline splitting and joining (bufio.Scanner / strings.Join) -/

/-- Split on newline characters; always returns at least one (possibly
empty) segment, exactly like repeatedly scanning up to each newline. -/
def splitOnNL : Str → List Str
  | [] => [[]]
  | c :: rest =>
    match splitOnNL rest with
    | [] => [[c]]
    | l :: ls => if c = '\n' then [] :: l :: ls else (c :: l) :: ls

/-- strings.Join(segments, newline). -/
def joinNL : List Str → Str
  | [] => []
  | [s] => s
  | s :: rest => s ++ '\n' :: joinNL rest

/-- The lines produced by bufio.Scanner over a whole file: a final
newline does not yield an extra empty line, a final unterminated line
is still produced. -/
def scanLines (content : Str) : List Str :=
  let segs := splitOnNL content
  if segs.getLast? = some [] then segs.dropLast else segs

/-! ### Byte-wise lexicographic order (Go sort.Strings) -/

/-- Go's string ordering: byte-wise lexicographic comparison (UTF-8 byte
order coincides with code-point order). -/
def lexLe : Str → Str → Bool
  | [], _ => true
  | _ :: _, [] => false
  | a :: as, b :: bs => if a = b then lexLe as bs else decide (a < b)

def LexLe (a b : Str) : Prop := lexLe a b = true

instance : DecidableRel LexLe := fun a b => inferInstanceAs (Decidable (lexLe a b = true))

theorem lexLe_total : ∀ a b : Str, lexLe a b = true ∨ lexLe b a = true
  | [], _ => Or.inl rfl
  | _ :: _, [] => Or.inr rfl
  | a :: as, b :: bs => by
    by_cases hab : a = b
    · subst hab
      simpa [lexLe] using lexLe_total as bs
    · rcases lt_or_gt_of_ne hab with h | h
      · exact Or.inl (by simp [lexLe, hab, h])
      · exact Or.inr (by simp [lexLe, Ne.symm hab, h])

theorem lexLe_trans : ∀ a b c : Str, lexLe a b = true → lexLe b c = true → lexLe a c = true
  | [], _, _, _, _ => rfl
  | _ :: _, [], _, h, _ => by simp [lexLe] at h
  | _ :: _, _ :: _, [], _, h => by simp [lexLe] at h
  | a :: as, b :: bs, c :: cs, hab, hbc => by
    by_cases h1 : a = b <;> by_cases h2 : b = c
    · subst h1; subst h2
      simp only [lexLe, if_pos rfl] at hab hbc ⊢
      exact lexLe_trans as bs cs hab hbc
    · subst h1
      simp only [lexLe, if_neg h2] at hbc
      simp [lexLe, h2, hbc]
    · subst h2
      simp only [lexLe, if_neg h1] at hab
      simp [lexLe, h1, hab]
    · simp only [lexLe, if_neg h1] at hab
      simp only [lexLe, if_neg h2] at hbc
      have hac : a < c := lt_trans (of_decide_eq_true hab) (of_decide_eq_true hbc)
      have hne : a ≠ c := ne_of_lt hac
      simp [lexLe, hne, hac]

theorem lexLe_antisymm : ∀ a b : Str, lexLe a b = true → lexLe b a = true → a = b
  | [], [], _, _ => rfl
  | [], _ :: _, _, h => by simp [lexLe] at h
  | _ :: _, [], h, _ => by simp [lexLe] at h
  | a :: as, b :: bs, hab, hba => by
    by_cases h1 : a = b
    · subst h1
      simp only [lexLe, if_pos rfl] at hab hba
      rw [lexLe_antisymm as bs hab hba]
    · simp only [lexLe, if_neg h1] at hab
      simp only [lexLe, if_neg (Ne.symm h1)] at hba
      exact absurd (of_decide_eq_true hba) (not_lt_of_lt (of_decide_eq_true hab))

instance : IsTotal Str LexLe := ⟨fun a b => lexLe_total a b⟩

instance : IsTrans Str LexLe := ⟨fun a b c => lexLe_trans a b c⟩

instance : IsAntisymm Str LexLe := ⟨fun a b => lexLe_antisymm a b⟩

/-! ### Sort-and-deduplicate (SaveLocalDomains / saveDomainsToFile) -/

/-- The deduplication loop of SaveLocalDomains: a `seen` set accumulates
the strings already emitted, keeping first occurrences in order. -/
def dedupSeen (seen : List Str) : List Str → List Str
  | [] => []
  | d :: rest => if d ∈ seen then dedupSeen seen rest else d :: dedupSeen (d :: seen) rest

/-- sort.Strings followed by the dedup loop, exactly as SaveLocalDomains
prepares the list it writes. -/
def sortDedup (l : List Str) : List Str := dedupSeen [] (List.insertionSort LexLe l)

theorem dedupSeen_sublist (seen : List Str) : ∀ l : List Str, List.Sublist (dedupSeen seen l) l := by
  intro l
  induction l generalizing seen with
  | nil => exact List.Sublist.refl []
  | cons d rest ih =>
    by_cases h : d ∈ seen
    · simpa [dedupSeen, h] using (ih seen).cons d
    · simpa [dedupSeen, h] using (ih (d :: seen)).cons₂ d

theorem mem_dedupSeen (x : Str) (seen : List Str) :
    ∀ l : List Str, x ∈ dedupSeen seen l ↔ x ∈ l ∧ x ∉ seen := by
  intro l
  induction l generalizing seen with
  | nil => simp [dedupSeen]
  | cons d rest ih =>
    by_cases h : d ∈ seen
    · simp only [dedupSeen, if_pos h, ih, List.mem_cons]
      constructor
      · rintro ⟨hx, hn⟩; exact ⟨Or.inr hx, hn⟩
      · rintro ⟨hx | hx, hn⟩
        · exact absurd (hx ▸ h) hn
        · exact ⟨hx, hn⟩
    · simp only [dedupSeen, if_neg h, List.mem_cons, ih]
      constructor
      · rintro (rfl | ⟨hx, hn⟩)
        · exact ⟨Or.inl rfl, h⟩
        · exact ⟨Or.inr hx, fun hs => hn (Or.inr hs)⟩
      · rintro ⟨hx | hx, hn⟩
        · exact Or.inl hx
        · by_cases hxd : x = d
          · exact Or.inl hxd
          · refine Or.inr ⟨hx, fun hs => ?_⟩
            rcases hs with h1 | h1
            · exact hxd h1
            · exact hn h1

theorem nodup_dedupSeen (seen : List Str) : ∀ l : List Str, (dedupSeen seen l).Nodup := by
  intro l
  induction l generalizing seen with
  | nil => simp [dedupSeen]
  | cons d rest ih =>
    by_cases h : d ∈ seen
    · simpa [dedupSeen, h] using ih seen
    · simp only [dedupSeen, if_neg h, List.nodup_cons]
      refine ⟨fun hmem => ?_, ih (d :: seen)⟩
      exact ((mem_dedupSeen d (d :: seen) rest).mp hmem).2 (List.mem_cons_self d seen)

theorem sortDedup_sorted (l : List Str) : List.Sorted LexLe (sortDedup l) :=
  List.Pairwise.sublist (dedupSeen_sublist [] _) (List.sorted_insertionSort LexLe l)

theorem sortDedup_nodup (l : List Str) : (sortDedup l).Nodup :=
  nodup_dedupSeen [] _

theorem mem_sortDedup (x : Str) (l : List Str) : x ∈ sortDedup l ↔ x ∈ l := by
  rw [sortDedup, mem_dedupSeen]
  simp [List.mem_insertionSort]

theorem sortDedup_eq_of_mem_iff (l₁ l₂ : List Str) (h : ∀ x, x ∈ l₁ ↔ x ∈ l₂) :
    sortDedup l₁ = sortDedup l₂ := by
  refine List.eq_of_perm_of_sorted ?_ (sortDedup_sorted l₁) (sortDedup_sorted l₂)
  refine (List.perm_ext_iff_of_nodup (sortDedup_nodup l₁) (sortDedup_nodup l₂)).mpr ?_
  intro a
  rw [mem_sortDedup, mem_sortDedup]
  exact h a

/-! ### The local-domain registry file (dns.go LoadLocalDomains / SaveLocalDomains) -/

/-- One scanned line of the registry file becomes a domain when, after
trimming, it is non-blank and does not begin with the comment marker.
(strings.HasPrefix with the one-character pattern "#" holds exactly when
the first character is '#'.) -/
def keepLine (d : Str) : Bool := decide (d ≠ [] ∧ d.head? ≠ some '#')

/-- LoadLocalDomains applied to a given file content: scan lines,
trim each, skip blanks and comments. -/
def loadDomainsFromContent (content : Str) : List Str :=
  ((scanLines content).map (fun l => trimSpace (dropCR l))).filter keepLine

/-- LoadLocalDomains: a missing registry file reads as the empty list. -/
def LoadLocalDomains (file : Option Str) : List Str :=
  match file with
  | none => []
  | some c => loadDomainsFromContent c

/-- SaveLocalDomains: the bytes written to the registry file — the
sorted, de-duplicated domains joined by newlines, with a trailing
newline when non-empty. -/
def SaveLocalDomains (domains : List Str) : Str :=
  let unique := sortDedup domains
  joinNL unique ++ (if unique.isEmpty then [] else ['\n'])

/-- A well-formed domain entry: survives a save/load cycle unchanged.
Non-empty, fixed by TrimSpace, free of newlines, and not a comment. -/
def wfDomain (d : Str) : Prop :=
  d ≠ [] ∧ trimSpace d = d ∧ '\n' ∉ d ∧ d.head? ≠ some '#'

instance (d : Str) : Decidable (wfDomain d) := by
  unfold wfDomain; infer_instance

theorem splitOnNL_ne_nil (s : Str) : splitOnNL s ≠ [] := by
  cases s with
  | nil => simp [splitOnNL]
  | cons c rest =>
    simp only [splitOnNL]
    rcases h : splitOnNL rest with _ | ⟨l, ls⟩
    · simp
    · by_cases hc : c = '\n' <;> simp [hc]

theorem splitOnNL_append_nl (s t : Str) (hs : '\n' ∉ s) :
    splitOnNL (s ++ '\n' :: t) = s :: splitOnNL t := by
  induction s with
  | nil =>
    simp only [List.nil_append, splitOnNL]
    rcases h : splitOnNL t with _ | ⟨l, ls⟩
    · exact absurd h (splitOnNL_ne_nil t)
    · simp
  | cons c rest ih =>
    have hc : c ≠ '\n' := fun h => hs (h ▸ List.mem_cons_self c rest)
    have hrest : '\n' ∉ rest := fun h => hs (List.mem_cons_of_mem c h)
    simp only [List.cons_append, splitOnNL, List.append_eq]
    rw [ih hrest]
    simp [hc]

theorem splitOnNL_no_nl (s : Str) (hs : '\n' ∉ s) : splitOnNL s = [s] := by
  induction s with
  | nil => simp [splitOnNL]
  | cons c rest ih =>
    have hc : c ≠ '\n' := fun h => hs (h ▸ List.mem_cons_self c rest)
    have hrest : '\n' ∉ rest := fun h => hs (List.mem_cons_of_mem c h)
    simp [splitOnNL, ih hrest, hc]

theorem splitOnNL_joinNL_nl (u : List Str) (hu : u ≠ [])
    (hnl : ∀ s ∈ u, '\n' ∉ s) : splitOnNL (joinNL u ++ ['\n']) = u ++ [[]] := by
  induction u with
  | nil => exact absurd rfl hu
  | cons x rest ih =>
    cases rest with
    | nil =>
      have hx : '\n' ∉ x := hnl x (List.mem_cons_self x [])
      have : splitOnNL (x ++ '\n' :: []) = x :: splitOnNL [] := splitOnNL_append_nl x [] hx
      simpa [joinNL, splitOnNL] using this
    | cons y rest2 =>
      have hx : '\n' ∉ x := hnl x (List.mem_cons_self x _)
      have hrest : ∀ s ∈ y :: rest2, '\n' ∉ s := fun s hs => hnl s (List.mem_cons_of_mem x hs)
      have step : joinNL (x :: y :: rest2) ++ ['\n'] = x ++ '\n' :: (joinNL (y :: rest2) ++ ['\n']) := by
        simp [joinNL]
      rw [step, splitOnNL_append_nl x _ hx, ih (by simp) hrest]
      simp

/-- TrimSpace absorbs the scanner's carriage-return stripping. -/
theorem trimSpace_dropCR (l : Str) : trimSpace (dropCR l) = trimSpace l := by
  unfold dropCR
  rcases h : l.reverse with _ | ⟨c, rest⟩
  · rfl
  · by_cases hc : c = '\r'
    · subst hc
      have hl : l = rest.reverse ++ ['\r'] := by
        have := congrArg List.reverse h
        simpa using this
      simp only [hl]
      unfold trimSpace trimRightCh
      simp [List.dropWhile, isSpaceCh]
    · have hl : l = (c :: rest).reverse := by
        have := congrArg List.reverse h
        simpa using this
      rw [hl]
      simp [hc]

/-- Each line of a saved registry is recovered verbatim by the loader's
per-line processing when the entry is well-formed. -/
theorem trim_keep_of_wf (d : Str) (h : wfDomain d) :
    trimSpace (dropCR d) = d ∧ keepLine d = true := by
  obtain ⟨hne, htrim, _, hhash⟩ := h
  refine ⟨by rw [trimSpace_dropCR, htrim], ?_⟩
  simp [keepLine, hne, hhash]

theorem map_trim_id (u : List Str) (h : ∀ d ∈ u, trimSpace (dropCR d) = d) :
    u.map (fun s => trimSpace (dropCR s)) = u := by
  induction u with
  | nil => rfl
  | cons d rest ih =>
    simp only [List.map_cons, h d (List.mem_cons_self d rest), List.cons.injEq, true_and]
    exact ih (fun d' hd' => h d' (List.mem_cons_of_mem d hd'))

theorem filter_keep_id (u : List Str) (h : ∀ d ∈ u, keepLine d = true) :
    u.filter keepLine = u := by
  induction u with
  | nil => rfl
  | cons d rest ih =>
    simp only [List.filter_cons, h d (List.mem_cons_self d rest), if_pos]
    rw [ih (fun d' hd' => h d' (List.mem_cons_of_mem d hd'))]

/-- Round trip at the content level: loading what SaveLocalDomains wrote
yields exactly the sorted, de-duplicated input, provided every input
entry is well-formed. -/
theorem load_saveContent (l : List Str) (hwf : ∀ d ∈ l, wfDomain d) :
    loadDomainsFromContent (SaveLocalDomains l) = sortDedup l := by
  have hwfu : ∀ d ∈ sortDedup l, wfDomain d := fun d hd => hwf d ((mem_sortDedup d l).mp hd)
  by_cases he : sortDedup l = []
  · simp [SaveLocalDomains, loadDomainsFromContent, scanLines, he, joinNL, splitOnNL]
  · have hnl : ∀ s ∈ sortDedup l, '\n' ∉ s := fun s hs => (hwfu s hs).2.2.1
    have hsplit : splitOnNL (joinNL (sortDedup l) ++ ['\n']) = sortDedup l ++ [[]] :=
      splitOnNL_joinNL_nl (sortDedup l) he hnl
    have hcontent : SaveLocalDomains l = joinNL (sortDedup l) ++ ['\n'] := by
      simp [SaveLocalDomains, List.isEmpty_iff, he]
    rw [loadDomainsFromContent, hcontent, scanLines]
    simp only [hsplit]
    rw [List.getLast?_concat, if_pos rfl, List.dropLast_concat]
    rw [map_trim_id _ (fun d hd => (trim_keep_of_wf d (hwfu d hd)).1)]
    exact filter_keep_id _ (fun d hd => (trim_keep_of_wf d (hwfu d hd)).2)

theorem load_save (l : List Str) (hwf : ∀ d ∈ l, wfDomain d) :
    LoadLocalDomains (some (SaveLocalDomains l)) = sortDedup l :=
  load_saveContent l hwf

/-! ### Dnsmasq configuration generation
(traefik.go generateDnsmasqConfigContent; dns.go UpdateDnsmasqConfig
builds the identical text inline, with GoogleDNS1 = 8.8.8.8 and
GoogleDNS2 = 8.8.4.4). -/

def dnsmasqHeader : Str :=
  str "# Local domains managed by srv\n# Do not edit manually - changes will be overwritten\n\n"

def dnsmasqNoDomains : Str := str "# No local domains registered\n"

def dnsmasqAddressLine (domain : Str) : Str :=
  str "address=/" ++ domain ++ str "/127.0.0.1\n"

def dnsmasqFooter : Str :=
  str "\n# Forward all other queries to upstream DNS\nserver=8.8.8.8\nserver=8.8.4.4\n\n# Don't read /etc/resolv.conf\nno-resolv\n"

def generateDnsmasqConfigContent (domains : List Str) : Str :=
  dnsmasqHeader ++
    (if domains.isEmpty then dnsmasqNoDomains
     else (domains.map dnsmasqAddressLine).flatten) ++
    dnsmasqFooter

/-! ### The DNS registry operations with explicit side effects
(dns.go RegisterLocalDomain / UnregisterLocalDomain / UpdateDnsmasqConfig).
The environment carries the results of the external probes the code
consults: CheckSystemDNS, IsDNSRunning, and whether the platform
SetupDNS / RemoveDNS strategies succeed. -/

structure DNSEnv where
  systemDNSOk : Bool
  dnsRunning : Bool
  setupFails : Bool
  removeFails : Bool

inductive DNSEvent where
  | save (content : Str)
  | updateDnsmasq (content : Str)
  | reloadDNS
  | setupDNS
  | removeDNS
  deriving DecidableEq

/-- UpdateDnsmasqConfig: regenerate dnsmasq.conf from the registry file
and reload the DNS container when it is running.  Returns the written
dnsmasq content and the emitted events. -/
def UpdateDnsmasqConfig (env : DNSEnv) (registry : Option Str) : Str × List DNSEvent :=
  let domains := LoadLocalDomains registry
  let content := generateDnsmasqConfigContent domains
  (content, DNSEvent.updateDnsmasq content :: (if env.dnsRunning then [DNSEvent.reloadDNS] else []))

/-- RegisterLocalDomain: returns the new registry file, the events
emitted, and whether the call reported an error (SetupDNS failing after
a successful registration). -/
def RegisterLocalDomain (env : DNSEnv) (registry : Option Str) (domain : Str) :
    Option Str × List DNSEvent × Bool :=
  let domains := LoadLocalDomains registry
  if domain ∈ domains then (registry, [], false)
  else
    let isFirstDomain := domains.isEmpty
    let newContent := SaveLocalDomains (domains ++ [domain])
    let upd := UpdateDnsmasqConfig env (some newContent)
    let engages := isFirstDomain && !env.systemDNSOk
    (some newContent,
     DNSEvent.save newContent :: upd.2 ++ (if engages then [DNSEvent.setupDNS] else []),
     engages && env.setupFails)

/-- UnregisterLocalDomain: returns the new registry file, the events
emitted, and whether the call reported an error (RemoveDNS failing
after a successful removal). -/
def UnregisterLocalDomain (env : DNSEnv) (registry : Option Str) (domain : Str) :
    Option Str × List DNSEvent × Bool :=
  let domains := LoadLocalDomains registry
  let filtered := domains.filter (fun d => decide (d ≠ domain))
  if domain ∈ domains then
    let newContent := SaveLocalDomains filtered
    let upd := UpdateDnsmasqConfig env (some newContent)
    let disengages := filtered.isEmpty
    (some newContent,
     DNSEvent.save newContent :: upd.2 ++ (if disengages then [DNSEvent.removeDNS] else []),
     disengages && env.removeFails)
  else (registry, [], false)

inductive DNSOp where
  | reg (domain : Str)
  | unreg (domain : Str)

def DNSOp.domain : DNSOp → Str
  | .reg d => d
  | .unreg d => d

def applyOp (env : DNSEnv) (registry : Option Str) : DNSOp → Option Str
  | .reg d => (RegisterLocalDomain env registry d).1
  | .unreg d => (UnregisterLocalDomain env registry d).1

def applyOps (env : DNSEnv) (registry : Option Str) (ops : List DNSOp) : Option Str :=
  ops.foldl (applyOp env) registry

/-- The domains passed to register operations in a sequence. -/
def regDomains (ops : List DNSOp) : List Str :=
  ops.filterMap (fun op => match op with | .reg d => some d | .unreg _ => none)

/-- Reachable registry-file states: absent, or the saved image of a
list of well-formed entries all drawn from `R`. -/
def GoodState (R : List Str) (st : Option Str) : Prop :=
  st = none ∨ ∃ l, (∀ x ∈ l, wfDomain x ∧ x ∈ R) ∧ st = some (SaveLocalDomains l)

theorem goodState_load (R : List Str) (st : Option Str) (h : GoodState R st) :
    ∃ l, (∀ x ∈ l, wfDomain x ∧ x ∈ R) ∧ LoadLocalDomains st = sortDedup l := by
  rcases h with rfl | ⟨l, hl, rfl⟩
  · exact ⟨[], by simp, by simp [LoadLocalDomains, sortDedup, dedupSeen]⟩
  · exact ⟨l, hl, load_save l (fun d hd => (hl d hd).1)⟩

theorem goodState_register (R : List Str) (env : DNSEnv) (st : Option Str) (d : Str)
    (hst : GoodState R st) (hd : wfDomain d) (hR : d ∈ R) :
    GoodState R (RegisterLocalDomain env st d).1 := by
  obtain ⟨l, hl, hload⟩ := goodState_load R st hst
  by_cases hmem : d ∈ LoadLocalDomains st
  · simpa [RegisterLocalDomain, hmem] using hst
  · refine Or.inr ⟨LoadLocalDomains st ++ [d], ?_, ?_⟩
    · intro x hx
      rcases List.mem_append.mp hx with hx | hx
      · rw [hload] at hx
        exact hl x ((mem_sortDedup x l).mp hx)
      · rw [List.mem_singleton.mp hx]
        exact ⟨hd, hR⟩
    · simp [RegisterLocalDomain, hmem]

theorem goodState_unregister (R : List Str) (env : DNSEnv) (st : Option Str) (d : Str)
    (hst : GoodState R st) : GoodState R (UnregisterLocalDomain env st d).1 := by
  obtain ⟨l, hl, hload⟩ := goodState_load R st hst
  by_cases hmem : d ∈ LoadLocalDomains st
  · refine Or.inr ⟨(LoadLocalDomains st).filter (fun x => decide (x ≠ d)), ?_, ?_⟩
    · intro x hx
      have hx' : x ∈ LoadLocalDomains st := List.mem_of_mem_filter hx
      rw [hload] at hx'
      exact hl x ((mem_sortDedup x l).mp hx')
    · simp [UnregisterLocalDomain, hmem]
  · simpa [UnregisterLocalDomain, hmem] using hst

theorem goodState_applyOps (R : List Str) (env : DNSEnv) (ops : List DNSOp)
    (hops : ∀ op ∈ ops, wfDomain op.domain)
    (hreg : ∀ d ∈ regDomains ops, d ∈ R) :
    ∀ st, GoodState R st → GoodState R (applyOps env st ops) := by
  induction ops with
  | nil => intro st hst; simpa [applyOps] using hst
  | cons op rest ih =>
    intro st hst
    have hrest : ∀ o ∈ rest, wfDomain o.domain :=
      fun o ho => hops o (List.mem_cons_of_mem op ho)
    have hregRest : ∀ d ∈ regDomains rest, d ∈ R := by
      intro d hdm
      apply hreg
      rcases op with d' | d' <;> simp [regDomains] at hdm ⊢ <;> tauto
    have hstep : GoodState R (applyOp env st op) := by
      rcases op with d | d
      · exact goodState_register R env st d hst
          (hops (DNSOp.reg d) (List.mem_cons_self _ _))
          (hreg d (by simp [regDomains]))
      · exact goodState_unregister R env st d hst
    simpa [applyOps, List.foldl_cons] using ih hrest hregRest (applyOp env st op) hstep

/-! ### Proxy-config merge engine (traefik.go mergeTraefikConfigs /
mergeEntryPoints).  A parsed YAML document is a string-keyed tree
(`map[string]any` in the source); only lookups matter because Go maps
are unordered, so the merge result is characterised through `lookupA`. -/

inductive YVal where
  | scalar (v : Str)
  | mapping (entries : List (Str × YVal))

abbrev YDoc := List (Str × YVal)

/-- Lookup in a string-keyed association map (first binding wins, which
matches a Go map where keys are unique). -/
def lookupA {β : Type} : List (Str × β) → Str → Option β
  | [], _ => none
  | (k, v) :: rest, key => if k = key then some v else lookupA rest key

/-- Go map assignment m[k] = v, as an association-map update. -/
def setKeyA {β : Type} : List (Str × β) → Str → β → List (Str × β)
  | [], k, v => [(k, v)]
  | (k', v') :: rest, k, v => if k' = k then (k, v) :: rest else (k', v') :: setKeyA rest k v

theorem lookupA_setKeyA {β : Type} (m : List (Str × β)) (k key : Str) (v : β) :
    lookupA (setKeyA m k v) key = if k = key then some v else lookupA m key := by
  induction m with
  | nil => simp [setKeyA, lookupA]
  | cons p rest ih =>
    obtain ⟨k', v'⟩ := p
    by_cases h1 : k' = k
    · subst h1
      by_cases h2 : k' = key
      · subst h2; simp [setKeyA, lookupA]
      · simp [setKeyA, lookupA, h2]
    · by_cases h2 : k' = key
      · subst h2
        have : ¬ k = k' := fun h => h1 h.symm
        simp [setKeyA, lookupA, h1, this]
      · simp [setKeyA, lookupA, h1, h2, ih]

def userSections : List Str :=
  [str "api", str "log", str "accessLog", str "metrics", str "tracing"]

def managedSections : List Str := [str "providers", str "certificatesResolvers"]

def entryPointsKey : Str := str "entryPoints"

/-- The value a user-owned section receives: the existing document's
value when present, the template's otherwise. -/
def pickUser (existing template : YDoc) (s : Str) : Option YVal :=
  match lookupA existing s with
  | some v => some v
  | none => lookupA template s

/-- Collect the bindings a list of section names contributes to the
merge result (absent sections contribute nothing). -/
def entriesFor (pick : Str → Option YVal) : List Str → YDoc
  | [] => []
  | s :: rest =>
    match pick s with
    | some v => (s, v) :: entriesFor pick rest
    | none => entriesFor pick rest

/-- The entryPoints value of a document as a map; a missing section or a
non-mapping value yields the empty map (the failed type assertion in
the source). -/
def epOf (doc : YDoc) : YDoc :=
  match lookupA doc entryPointsKey with
  | some (YVal.mapping entries) => entries
  | _ => []

/-- mergeEntryPoints: start from the existing entry map, then ensure
web and websecure from the template. -/
def mergeEntryPoints (existing template : YDoc) : YDoc :=
  let base := epOf existing
  let tEP := epOf template
  let withWeb :=
    match lookupA tEP (str "web") with
    | some v => setKeyA base (str "web") v
    | none => base
  match lookupA tEP (str "websecure") with
  | some v => setKeyA withWeb (str "websecure") v
  | none => withWeb

/-- mergeTraefikConfigs: user sections preserved, managed sections from
the template, entryPoints merged. -/
def mergeTraefikConfigs (existing template : YDoc) : YDoc :=
  entriesFor (pickUser existing template) userSections ++
    entriesFor (fun s => lookupA template s) managedSections ++
    [(entryPointsKey, YVal.mapping (mergeEntryPoints existing template))]

theorem lookupA_append {β : Type} (a b : List (Str × β)) (k : Str) :
    lookupA (a ++ b) k = match lookupA a k with | some v => some v | none => lookupA b k := by
  induction a with
  | nil => simp [lookupA]
  | cons p rest ih =>
    obtain ⟨k', v'⟩ := p
    by_cases h : k' = k
    · simp [lookupA, h]
    · simp [lookupA, h, ih]

theorem lookupA_entriesFor (pick : Str → Option YVal) (ss : List Str) (k : Str) :
    lookupA (entriesFor pick ss) k = if k ∈ ss then pick k else none := by
  induction ss with
  | nil => simp [entriesFor, lookupA]
  | cons s rest ih =>
    by_cases hk : s = k
    · subst hk
      rcases h : pick s with _ | v
      · simp [entriesFor, h, ih]
      · simp [entriesFor, h, lookupA]
    · have hksr : k ∈ s :: rest ↔ k ∈ rest := by
        constructor
        · intro h
          rcases List.mem_cons.mp h with he | hr
          · exact absurd he.symm hk
          · exact hr
        · exact List.mem_cons_of_mem s
      rcases h : pick s with _ | v
      · simp only [entriesFor, h, ih]
        by_cases hr : k ∈ rest
        · rw [if_pos hr, if_pos (hksr.mpr hr)]
        · rw [if_neg hr, if_neg (fun hm => hr (hksr.mp hm))]
      · simp only [entriesFor, h, lookupA, if_neg hk, ih]
        by_cases hr : k ∈ rest
        · rw [if_pos hr, if_pos (hksr.mpr hr)]
        · rw [if_neg hr, if_neg (fun hm => hr (hksr.mp hm))]

/-- Lookup in the merged document, for a user-owned section. -/
theorem lookup_merge_user (existing template : YDoc) (s : Str) (hs : s ∈ userSections) :
    lookupA (mergeTraefikConfigs existing template) s = pickUser existing template s := by
  have hnotman : s ∉ managedSections := by
    fin_cases hs <;> decide
  have hne : entryPointsKey ≠ s := by
    fin_cases hs <;> decide
  rw [mergeTraefikConfigs, lookupA_append, lookupA_append, lookupA_entriesFor,
    lookupA_entriesFor, if_pos hs, if_neg hnotman]
  rcases h : pickUser existing template s with _ | v
  · simp [lookupA, hne]
  · rfl

/-- Lookup in the merged document, for a managed section. -/
theorem lookup_merge_managed (existing template : YDoc) (s : Str) (hs : s ∈ managedSections) :
    lookupA (mergeTraefikConfigs existing template) s = lookupA template s := by
  have hnotuser : s ∉ userSections := by
    fin_cases hs <;> decide
  have hne : entryPointsKey ≠ s := by
    fin_cases hs <;> decide
  rw [mergeTraefikConfigs, lookupA_append, lookupA_append, lookupA_entriesFor,
    lookupA_entriesFor, if_neg hnotuser, if_pos hs]
  rcases h : lookupA template s with _ | v
  · simp [lookupA, hne]
  · rfl

/-- The merged document always binds entryPoints to the merged map. -/
theorem lookup_merge_entryPoints (existing template : YDoc) :
    lookupA (mergeTraefikConfigs existing template) entryPointsKey =
      some (YVal.mapping (mergeEntryPoints existing template)) := by
  have h1 : entryPointsKey ∉ userSections := by decide
  have h2 : entryPointsKey ∉ managedSections := by decide
  rw [mergeTraefikConfigs, lookupA_append, lookupA_append, lookupA_entriesFor,
    lookupA_entriesFor, if_neg h1, if_neg h2]
  simp [lookupA]

/-! ### Template substitution and writeOrMergeTraefikYML (traefik.go).
strings.ReplaceAll replaces non-overlapping occurrences left to right;
the source only ever substitutes non-empty patterns, and an empty
pattern is treated here as matching nowhere. -/

/-- Is the first argument a leading segment of the second?
(Go strings.HasPrefix.) -/
def isPre : Str → Str → Bool
  | [], _ => true
  | _ :: _, [] => false
  | p :: ps, c :: cs => p = c && isPre ps cs

def replaceAll : Str → Str → Str → Str
  | [], _, _ => []
  | c :: rest, pat, rep =>
    if h : pat ≠ [] ∧ isPre pat (c :: rest) = true then
      rep ++ replaceAll ((c :: rest).drop pat.length) pat rep
    else
      c :: replaceAll rest pat rep
termination_by s _ _ => s.length
decreasing_by
  · simp only [List.length_drop, List.length_cons]
    have hp : 1 ≤ pat.length := by
      rcases pat with _ | ⟨p, ps⟩
      · exact absurd rfl h.1
      · simp
    omega
  · simp

/-- The TraefikYML constant, with the two substitution markers. -/
def traefikYMLTemplate : Str := str "api:\n  dashboard: true\n  insecure: true\n  disableDashboardAd: true\n\nlog:\n  level: INFO\n\naccessLog:\n  filePath: /etc/traefik/logs/access.log\n  bufferingSize: 100\n  filters:\n    statusCodes:\n      - \"200-299\"\n      - \"400-599\"\n\nmetrics:\n  prometheus:\n    addEntryPointsLabels: true\n    addServicesLabels: true\n    addRoutersLabels: true\n    buckets:\n      - 0.1\n      - 0.3\n      - 1.2\n      - 5.0\n\ntracing:\n  serviceName: traefik\n\nentryPoints:\n  web:\n    address: \":80\"\n    http:\n      redirections:\n        entryPoint:\n          to: websecure\n          scheme: https\n  websecure:\n    address: \":443\"\n\nproviders:\n  docker:\n    exposedByDefault: false\n    network: \"\x7b\x7bNETWORK\x7d\x7d\"\n  file:\n    directory: /etc/traefik/conf\n    watch: true\n\ncertificatesResolvers:\n  letsencrypt:\n    acme:\n      email: \"\x7b\x7bEMAIL\x7d\x7d\"\n      storage: /etc/traefik/certs/acme.json\n      httpChallenge:\n        entryPoint: web\n"

/-- The freshly substituted template: TraefikYML with the network and
email markers replaced. -/
def substTemplate (networkName email : Str) : Str :=
  replaceAll (replaceAll traefikYMLTemplate (str "\x7b\x7bNETWORK\x7d\x7d") networkName)
    (str "\x7b\x7bEMAIL\x7d\x7d") email

/-- The outcome of reading the existing traefik.yml. -/
inductive ReadResult where
  | notExist
  | content (data : Str)
  | readErr

inductive MergeError where
  | readFailed
  | templateParseFailed
  | marshalFailed
  deriving DecidableEq

/-- writeOrMergeTraefikYML, parameterised over the external YAML codec
(parse failure is `none`).  The returned string is the content written
to the traefik.yml file. -/
def writeOrMergeTraefikYML (parseY : Str → Option YDoc) (marshalY : YDoc → Str)
    (networkName email : Str) (existing : ReadResult) : Except MergeError Str :=
  let templateYML := substTemplate networkName email
  match existing with
  | .notExist => .ok templateYML
  | .readErr => .error .readFailed
  | .content data =>
    match parseY data with
    | none => .ok templateYML
    | some ex =>
      match parseY templateYML with
      | none => .error .templateParseFailed
      | some tmpl => .ok (marshalY (mergeTraefikConfigs ex tmpl))

/-! ### Container network attachment (docker.go ConnectContainerToNetwork).
The constants package defines the idempotency markers
ErrAlreadyExists = "already exists" and ErrEndpointExists =
"endpoint with name". -/

/-- Go strings.Contains: does the first string contain the second? -/
def hasSub (s pat : Str) : Bool :=
  match s with
  | [] => isPre pat []
  | _ :: rest => isPre pat s || hasSub rest pat

def errAlreadyExists : Str := str "already exists"

def errEndpointExists : Str := str "endpoint with name"

/-- The outcome of the underlying `docker network connect` process:
success, or failure with its combined output. -/
inductive ProcResult where
  | ok
  | fail (output : Str)

/-- ConnectContainerToNetwork: a process failure whose output carries an
idempotency marker is reported as success. -/
def ConnectContainerToNetwork (containerName networkName aliasName : Str)
    (res : ProcResult) : Except Str Unit :=
  match res with
  | .ok => .ok ()
  | .fail output =>
    if hasSub output errAlreadyExists || hasSub output errEndpointExists then .ok ()
    else .error (str "failed to connect container to network: " ++ output)

theorem isPre_ex (pat s : Str) (h : isPre pat s = true) : ∃ t, s = pat ++ t := by
  induction pat generalizing s with
  | nil => exact ⟨s, rfl⟩
  | cons p ps ih =>
    rcases s with _ | ⟨c, cs⟩
    · simp [isPre] at h
    · simp only [isPre, Bool.and_eq_true, decide_eq_true_eq] at h
      obtain ⟨t, ht⟩ := ih cs h.2
      exact ⟨t, by simp [h.1, ht]⟩

theorem isPre_append (pat t : Str) : isPre pat (pat ++ t) = true := by
  induction pat with
  | nil => rfl
  | cons p ps ih => simp [isPre, ih]

/-- strings.Contains holds exactly when the pattern occurs as a
contiguous segment. -/
theorem hasSub_iff (s pat : Str) : hasSub s pat = true ↔ ∃ a b, s = a ++ pat ++ b := by
  constructor
  · intro h
    induction s with
    | nil =>
      rcases pat with _ | ⟨p, ps⟩
      · exact ⟨[], [], rfl⟩
      · simp [hasSub, isPre] at h
    | cons c rest ih =>
      simp only [hasSub, Bool.or_eq_true] at h
      rcases h with hpre | hrest
      · obtain ⟨t, ht⟩ := isPre_ex pat (c :: rest) hpre
        exact ⟨[], t, by simp [ht]⟩
      · obtain ⟨a, b, hab⟩ := ih hrest
        exact ⟨c :: a, b, by simp [hab]⟩
  · rintro ⟨a, b, rfl⟩
    induction a with
    | nil =>
      rcases pat with _ | ⟨p, ps⟩
      · rcases b with _ | ⟨c, cs⟩
        · rfl
        · simp [hasSub, isPre]
      · simp only [List.nil_append, List.cons_append, hasSub, Bool.or_eq_true]
        exact Or.inl (by simpa using isPre_append (p :: ps) b)
    | cons c as ih =>
      simp only [List.cons_append, hasSub, Bool.or_eq_true]
      exact Or.inr ih

/-- Substring containment is transitive. -/
theorem hasSub_trans (s b p : Str) (hbp : hasSub b p = true) (hsb : hasSub s b = true) :
    hasSub s p = true := by
  obtain ⟨a1, b1, hb⟩ := (hasSub_iff b p).mp hbp
  obtain ⟨a2, b2, hs⟩ := (hasSub_iff s b).mp hsb
  refine (hasSub_iff s p).mpr ⟨a2 ++ a1, b1 ++ b2, ?_⟩
  simp [hs, hb]

/-! ### Daemon: container mapping cache and start-event handling
(package daemon: refreshContainerMapping / handleContainerStart). -/

/-- The slice of a site record consulted by the daemon
(site.List snapshot). -/
structure SiteR where
  name : Str
  serviceName : Str
  siteType : Str

def siteTypeCompose : Str := str "compose"

/-- refreshContainerMapping's loop body: rebuild the container-name to
site-name map from a site snapshot. -/
def mappingOf (sites : List SiteR) : List (Str × Str) :=
  sites.foldl
    (fun m s =>
      if s.serviceName ≠ [] ∧ s.siteType = siteTypeCompose then setKeyA m s.serviceName s.name
      else m)
    []

/-- refreshContainerMapping: on a successful site listing the cache is
replaced wholesale; a listing error leaves the cache untouched (the
early error return in the source). -/
def refreshContainerMapping (sitesRes : Except Unit (List SiteR))
    (old : List (Str × Str)) : List (Str × Str) :=
  match sitesRes with
  | .error _ => old
  | .ok sites => mappingOf sites

inductive DaemonEffect where
  | refresh
  | attach (containerName networkName aliasName : Str)
  deriving DecidableEq

/-- handleContainerStart: the attribute lookup yields the empty string
for a missing name key, exactly as a Go map access does.  Returns the
cache after the call and the effects performed, in order. -/
def handleContainerStart (networkName : Str) (sitesRes : Except Unit (List SiteR))
    (containers : List (Str × Str)) (attrs : List (Str × Str)) :
    List (Str × Str) × List DaemonEffect :=
  let containerName := (lookupA attrs (str "name")).getD []
  if containerName = [] then (containers, [])
  else
    match lookupA containers containerName with
    | some _ => (containers, [DaemonEffect.attach containerName networkName containerName])
    | none =>
      let rebuilt := refreshContainerMapping sitesRes containers
      match lookupA rebuilt containerName with
      | some _ =>
        (rebuilt, [DaemonEffect.refresh, DaemonEffect.attach containerName networkName containerName])
      | none => (rebuilt, [DaemonEffect.refresh])

/-- Characterisation of the rebuilt cache: every binding comes from a
compose site with a non-empty recorded container name. -/
theorem lookupA_mappingOf (sites : List SiteR) (k : Str) (v : Str)
    (h : lookupA (mappingOf sites) k = some v) :
    ∃ s ∈ sites, s.serviceName = k ∧ s.name = v ∧ s.serviceName ≠ [] ∧
      s.siteType = siteTypeCompose := by
  suffices H : ∀ (m : List (Str × Str)),
      lookupA (sites.foldl (fun m s =>
        if s.serviceName ≠ [] ∧ s.siteType = siteTypeCompose then setKeyA m s.serviceName s.name
        else m) m) k = some v →
      (∃ s ∈ sites, s.serviceName = k ∧ s.name = v ∧ s.serviceName ≠ [] ∧
        s.siteType = siteTypeCompose) ∨ lookupA m k = some v by
    rcases H [] h with hs | hm
    · exact hs
    · simp [lookupA] at hm
  clear h
  induction sites with
  | nil => exact fun m h => Or.inr h
  | cons s rest ih =>
    intro m h
    simp only [List.foldl_cons] at h
    rcases ih _ h with hs | hm
    · obtain ⟨s', hs', hrest⟩ := hs
      exact Or.inl ⟨s', List.mem_cons_of_mem s hs', hrest⟩
    · by_cases hc : s.serviceName ≠ [] ∧ s.siteType = siteTypeCompose
      · rw [if_pos hc, lookupA_setKeyA] at hm
        by_cases hk : s.serviceName = k
        · rw [if_pos hk] at hm
          exact Or.inl ⟨s, List.mem_cons_self s rest, hk, (Option.some.injEq _ _).mp hm.symm ▸ rfl,
            hc.1, hc.2⟩
        · rw [if_neg hk] at hm
          exact Or.inr hm
      · rw [if_neg hc] at hm
        exact Or.inr hm

/-! ## Claims -/

/-- Claim C7: a network-attach invocation whose process output contains
an "already exists" or "endpoint already exists" idempotency marker is
reported as success by ConnectContainerToNetwork, for every container
name, network name and alias; only failures without these markers are
returned as errors.  (The source checks the substrings "already exists"
and "endpoint with name"; any output containing "endpoint already
exists" also contains "already exists", so both directions hold.) -/
theorem claim_C7 (containerName networkName aliasName output : Str) :
    ((hasSub output (str "already exists") = true ∨
        hasSub output (str "endpoint already exists") = true) →
      ConnectContainerToNetwork containerName networkName aliasName
        (ProcResult.fail output) = .ok ()) ∧
    (∀ e, ConnectContainerToNetwork containerName networkName aliasName
        (ProcResult.fail output) = .error e →
      hasSub output (str "already exists") = false ∧
      hasSub output (str "endpoint already exists") = false) := by
  constructor
  · intro h
    have hmark : hasSub output errAlreadyExists = true := by
      rcases h with h | h
      · exact h
      · exact hasSub_trans output (str "endpoint already exists") errAlreadyExists (by decide) h
    simp [ConnectContainerToNetwork, hmark]
  · intro e he
    by_cases h1 : hasSub output errAlreadyExists = true
    · simp [ConnectContainerToNetwork, h1] at he
    · refine ⟨by simpa using h1, ?_⟩
      by_cases h2 : hasSub output (str "endpoint already exists") = true
      · exact absurd
          (hasSub_trans output (str "endpoint already exists") errAlreadyExists (by decide) h2) h1
      · simpa using h2

theorem claim_C7_witness :
    ConnectContainerToNetwork (str "myapp-web-1") (str "srv") (str "myapp-web-1")
      (ProcResult.fail (str "Error response from daemon: endpoint already exists in network")) =
      .ok () :=
  (claim_C7 (str "myapp-web-1") (str "srv") (str "myapp-web-1")
    (str "Error response from daemon: endpoint already exists in network")).1
    (Or.inr (by decide))

/-- Claim C4: dnsmasq configuration generation is a pure, deterministic
function of the domain set: two lists equal as sets produce, after the
save path's sorting, byte-identical output; the output carries one
address line per domain; and the empty set yields the comment-only
configuration (header, "no local domains" comment, fixed upstream
servers and no-resolv). -/
theorem claim_C4 (D1 D2 D : List Str) (d : Str) :
    ((∀ x, x ∈ D1 ↔ x ∈ D2) →
      generateDnsmasqConfigContent (sortDedup D1) =
        generateDnsmasqConfigContent (sortDedup D2)) ∧
    (d ∈ D → ∃ a b, generateDnsmasqConfigContent D = a ++ dnsmasqAddressLine d ++ b) ∧
    generateDnsmasqConfigContent [] = dnsmasqHeader ++ dnsmasqNoDomains ++ dnsmasqFooter := by
  refine ⟨fun h => by rw [sortDedup_eq_of_mem_iff D1 D2 h], fun hd => ?_, rfl⟩
  obtain ⟨s, t, rfl⟩ := List.append_of_mem hd
  have hne : (s ++ d :: t).isEmpty = false := by
    rcases s with _ | _ <;> simp
  refine ⟨dnsmasqHeader ++ (s.map dnsmasqAddressLine).flatten,
    (t.map dnsmasqAddressLine).flatten ++ dnsmasqFooter, ?_⟩
  simp [generateDnsmasqConfigContent, hne]

theorem claim_C4_witness :
    generateDnsmasqConfigContent (sortDedup [str "b.test", str "a.test"]) =
      generateDnsmasqConfigContent (sortDedup [str "a.test", str "b.test", str "a.test"]) :=
  (claim_C4 [str "b.test", str "a.test"] [str "a.test", str "b.test", str "a.test"] [] []).1
    (fun x => by
      simp only [List.mem_cons, List.not_mem_nil, or_false]
      tauto)

/-- Claim C6: if the existing proxy configuration cannot be parsed, the
merge is abandoned and the written output equals the freshly
substituted template verbatim; within the merge path, only a template
parse failure is surfaced as an error. -/
theorem claim_C6 (parseY : Str → Option YDoc) (marshalY : YDoc → Str)
    (networkName email data : Str) :
    (parseY data = none →
      writeOrMergeTraefikYML parseY marshalY networkName email (ReadResult.content data) =
        .ok (substTemplate networkName email)) ∧
    (∀ e, writeOrMergeTraefikYML parseY marshalY networkName email (ReadResult.content data) =
        .error e →
      e = MergeError.templateParseFailed ∧ parseY (substTemplate networkName email) = none) := by
  constructor
  · intro h
    simp [writeOrMergeTraefikYML, h]
  · intro e he
    rcases h1 : parseY data with _ | ex
    · simp [writeOrMergeTraefikYML, h1] at he
    · rcases h2 : parseY (substTemplate networkName email) with _ | tmpl
      · simp only [writeOrMergeTraefikYML, h1, h2] at he
        exact ⟨((Except.error.injEq _ _).mp he).symm, rfl⟩
      · simp [writeOrMergeTraefikYML, h1, h2] at he

theorem claim_C6_witness :
    writeOrMergeTraefikYML (fun _ => none) (fun _ => []) (str "srv") (str "dev@example.com")
      (ReadResult.content (str "not: [valid")) =
      .ok (substTemplate (str "srv") (str "dev@example.com")) :=
  (claim_C6 (fun _ => none) (fun _ => []) (str "srv") (str "dev@example.com")
    (str "not: [valid")).1 rfl

/-- Claim C5: in the merged document, user-owned sections come from the
existing document when present and the template otherwise; managed
sections always equal the template's value; and the merged entryPoints
map keeps every existing entry while the template's web and websecure
entries overwrite entries of the same name. -/
theorem claim_C5 (existing template : YDoc) :
    (∀ s ∈ userSections,
      lookupA (mergeTraefikConfigs existing template) s =
        match lookupA existing s with
        | some v => some v
        | none => lookupA template s) ∧
    (∀ s ∈ managedSections,
      lookupA (mergeTraefikConfigs existing template) s = lookupA template s) ∧
    lookupA (mergeTraefikConfigs existing template) entryPointsKey =
      some (YVal.mapping (mergeEntryPoints existing template)) ∧
    (∀ k, k ≠ str "web" → k ≠ str "websecure" →
      lookupA (mergeEntryPoints existing template) k = lookupA (epOf existing) k) ∧
    (∀ v, lookupA (epOf template) (str "web") = some v →
      lookupA (mergeEntryPoints existing template) (str "web") = some v) ∧
    (∀ v, lookupA (epOf template) (str "websecure") = some v →
      lookupA (mergeEntryPoints existing template) (str "websecure") = some v) := by
  refine ⟨fun s hs => lookup_merge_user existing template s hs,
    fun s hs => lookup_merge_managed existing template s hs,
    lookup_merge_entryPoints existing template, ?_, ?_, ?_⟩
  · intro k hkw hkws
    have hw : ¬ str "web" = k := fun h => hkw h.symm
    have hws : ¬ str "websecure" = k := fun h => hkws h.symm
    unfold mergeEntryPoints
    rcases h1 : lookupA (epOf template) (str "web") with _ | w <;>
      rcases h2 : lookupA (epOf template) (str "websecure") with _ | ws <;>
      simp [h1, h2, lookupA_setKeyA, hw, hws]
  · intro v hv
    unfold mergeEntryPoints
    rcases h2 : lookupA (epOf template) (str "websecure") with _ | ws <;>
      simp [hv, h2, lookupA_setKeyA, show str "websecure" ≠ str "web" by decide]
  · intro v hv
    unfold mergeEntryPoints
    rcases h1 : lookupA (epOf template) (str "web") with _ | w <;>
      simp [hv, h1, lookupA_setKeyA]

theorem claim_C5_witness :
    lookupA
      (mergeEntryPoints
        [(entryPointsKey,
          YVal.mapping [(str "custom", YVal.scalar (str "c1")), (str "web", YVal.scalar (str "old"))])]
        [(entryPointsKey,
          YVal.mapping [(str "web", YVal.scalar (str "w")), (str "websecure", YVal.scalar (str "s"))])])
      (str "custom") = some (YVal.scalar (str "c1")) :=
  ((claim_C5
    [(entryPointsKey,
      YVal.mapping [(str "custom", YVal.scalar (str "c1")), (str "web", YVal.scalar (str "old"))])]
    [(entryPointsKey,
      YVal.mapping [(str "web", YVal.scalar (str "w")), (str "websecure", YVal.scalar (str "s"))])]).2.2.2.1
    (str "custom") (by decide) (by decide)).trans rfl

/-- Claim C8: for every decoded container-start event the handler looks
the container name up in the cache; a hit attaches once with alias
equal to the container name; a miss rebuilds the cache exactly once and
retries exactly once; a second miss is silently ignored with no attach.
An event whose metadata carries no name is ignored outright. -/
theorem claim_C8 (networkName : Str) (sitesRes : Except Unit (List SiteR))
    (containers attrs : List (Str × Str)) :
    let name := (lookupA attrs (str "name")).getD []
    (name = [] →
      handleContainerStart networkName sitesRes containers attrs = (containers, [])) ∧
    (name ≠ [] → ∀ siteName, lookupA containers name = some siteName →
      handleContainerStart networkName sitesRes containers attrs =
        (containers, [DaemonEffect.attach name networkName name])) ∧
    (name ≠ [] → lookupA containers name = none →
      ∀ siteName, lookupA (refreshContainerMapping sitesRes containers) name = some siteName →
      handleContainerStart networkName sitesRes containers attrs =
        (refreshContainerMapping sitesRes containers,
          [DaemonEffect.refresh, DaemonEffect.attach name networkName name])) ∧
    (name ≠ [] → lookupA containers name = none →
      lookupA (refreshContainerMapping sitesRes containers) name = none →
      handleContainerStart networkName sitesRes containers attrs =
        (refreshContainerMapping sitesRes containers, [DaemonEffect.refresh])) := by
  refine ⟨fun h => ?_, fun h siteName hhit => ?_, fun h hmiss siteName hhit => ?_,
    fun h hmiss hmiss2 => ?_⟩
  · simp [handleContainerStart, h]
  · simp [handleContainerStart, h, hhit]
  · simp [handleContainerStart, h, hmiss, hhit]
  · simp [handleContainerStart, h, hmiss, hmiss2]

theorem claim_C8_witness :
    handleContainerStart (str "srv") (Except.ok [])
      [(str "myapp-web-1", str "myapp")] [(str "name", str "myapp-web-1")] =
      ([(str "myapp-web-1", str "myapp")],
        [DaemonEffect.attach (str "myapp-web-1") (str "srv") (str "myapp-web-1")]) :=
  (claim_C8 (str "srv") (Except.ok []) [(str "myapp-web-1", str "myapp")]
    [(str "name", str "myapp-web-1")]).2.1 (by decide) (str "myapp") (by decide)

/-- Claim C10: a successful rebuild fully replaces the cache with a map
derived only from the site snapshot; every cache binding comes from a
compose site with a non-empty recorded container name; and a container
whose name is not recorded by any compose site is never attached. -/
theorem claim_C10 (old : List (Str × Str)) (sites sites0 sites1 : List SiteR)
    (networkName k v : Str) (attrs : List (Str × Str)) :
    refreshContainerMapping (Except.ok sites) old = mappingOf sites ∧
    (lookupA (mappingOf sites) k = some v →
      ∃ s ∈ sites, s.serviceName = k ∧ s.name = v ∧ s.serviceName ≠ [] ∧
        s.siteType = siteTypeCompose) ∧
    ((∀ s ∈ sites0 ++ sites1,
        ¬(s.serviceName = (lookupA attrs (str "name")).getD [] ∧ s.serviceName ≠ [] ∧
          s.siteType = siteTypeCompose)) →
      ∀ c n a, DaemonEffect.attach c n a ∉
        (handleContainerStart networkName (Except.ok sites1) (mappingOf sites0) attrs).2) := by
  refine ⟨rfl, lookupA_mappingOf sites k v, fun hnone c n a => ?_⟩
  by_cases hname : (lookupA attrs (str "name")).getD [] = []
  · simp [handleContainerStart, hname]
  · have hmiss0 : lookupA (mappingOf sites0) ((lookupA attrs (str "name")).getD []) = none := by
      rcases h : lookupA (mappingOf sites0) ((lookupA attrs (str "name")).getD []) with _ | v'
      · rfl
      · obtain ⟨s, hsmem, h1, _, h3, h4⟩ := lookupA_mappingOf sites0 _ v' h
        exact absurd ⟨h1, h3, h4⟩ (hnone s (List.mem_append.mpr (Or.inl hsmem)))
    have hmiss1 : lookupA (mappingOf sites1) ((lookupA attrs (str "name")).getD []) = none := by
      rcases h : lookupA (mappingOf sites1) ((lookupA attrs (str "name")).getD []) with _ | v'
      · rfl
      · obtain ⟨s, hsmem, h1, _, h3, h4⟩ := lookupA_mappingOf sites1 _ v' h
        exact absurd ⟨h1, h3, h4⟩ (hnone s (List.mem_append.mpr (Or.inr hsmem)))
    simp [handleContainerStart, hname, hmiss0, refreshContainerMapping, hmiss1]

theorem claim_C10_witness :
    DaemonEffect.attach (str "static-1") (str "srv") (str "static-1") ∉
      (handleContainerStart (str "srv") (Except.ok [⟨str "assets", str "static-1", str "static"⟩])
        (mappingOf [⟨str "assets", str "static-1", str "static"⟩])
        [(str "name", str "static-1")]).2 :=
  (claim_C10 [] [] [⟨str "assets", str "static-1", str "static"⟩]
    [⟨str "assets", str "static-1", str "static"⟩] (str "srv") [] []
    [(str "name", str "static-1")]).2.2 (by decide)
    (str "static-1") (str "srv") (str "static-1")

/-- Claim C2: unregistering the last registered domain transitions the
set to empty and invokes resolver disengagement (RemoveDNS) exactly
once; unregistering an absent domain is a no-op with no save, no
dnsmasq regeneration and no disengagement call. -/
theorem claim_C2 (env : DNSEnv) (st : Option Str) (d : Str) :
    (LoadLocalDomains st = [d] →
      LoadLocalDomains (UnregisterLocalDomain env st d).1 = [] ∧
      (UnregisterLocalDomain env st d).2.1.count DNSEvent.removeDNS = 1) ∧
    (d ∉ LoadLocalDomains st → UnregisterLocalDomain env st d = (st, [], false)) := by
  constructor
  · intro hL
    have hmem : d ∈ LoadLocalDomains st := hL ▸ List.mem_cons_self d []
    have hfil : (LoadLocalDomains st).filter (fun x => decide (x ≠ d)) = [] := by
      rw [hL]; simp
    simp only [UnregisterLocalDomain, hfil, if_pos hmem]
    have hsave : SaveLocalDomains ([] : List Str) = [] := rfl
    rw [hsave]
    constructor
    · rfl
    · cases hdr : env.dnsRunning <;>
        simp [UpdateDnsmasqConfig, hdr, List.count_cons, List.count_append]
  · intro h
    simp [UnregisterLocalDomain, h]

theorem claim_C2_witness :
    LoadLocalDomains
      (UnregisterLocalDomain ⟨false, false, false, false⟩ (some (str "api.test\n"))
        (str "api.test")).1 = [] ∧
    (UnregisterLocalDomain ⟨false, false, false, false⟩ (some (str "api.test\n"))
      (str "api.test")).2.1.count DNSEvent.removeDNS = 1 :=
  (claim_C2 ⟨false, false, false, false⟩ (some (str "api.test\n")) (str "api.test")).1
    (by decide)

/-- Claim C1 (counterexample to the claim as stated): from an empty
registry, registering the same fresh, well-formed domain twice invokes
SetupDNS zero times — not exactly once — whenever the CheckSystemDNS
probe reports that the system already resolves test domains locally
(the source guards engagement with that probe). -/
theorem claim_C1_counterexample :
    ((RegisterLocalDomain ⟨true, false, false, false⟩ none (str "a.test")).2.1 ++
      (RegisterLocalDomain ⟨true, false, false, false⟩
        (RegisterLocalDomain ⟨true, false, false, false⟩ none (str "a.test")).1
        (str "a.test")).2.1).count DNSEvent.setupDNS = 0 := by
  decide

theorem nodup_count_eq_one {α : Type} [BEq α] [LawfulBEq α] (l : List α) (a : α)
    (hn : l.Nodup) (hm : a ∈ l) : l.count a = 1 := by
  induction l with
  | nil => cases hm
  | cons x xs ih =>
    rw [List.count_cons]
    rcases List.mem_cons.mp hm with rfl | hmx
    · have hx : xs.count a = 0 :=
        List.count_eq_zero.mpr (List.nodup_cons.mp hn).1
      simp [hx]
    · have hxa : (x == a) = false := by
        refine beq_eq_false_iff_ne.mpr ?_
        rintro rfl
        exact (List.nodup_cons.mp hn).1 hmx
      rw [ih (List.nodup_cons.mp hn).2 hmx]
      simp [hxa]

/-- A register call with an already-present domain is a complete no-op. -/
theorem register_noop (env : DNSEnv) (st : Option Str) (d : Str)
    (hmem : d ∈ LoadLocalDomains st) : RegisterLocalDomain env st d = (st, [], false) := by
  simp [RegisterLocalDomain, hmem]

/-- A register call with a fresh domain: save, regenerate, and engage
the resolver exactly when the set was empty and the probe failed. -/
theorem register_fresh (env : DNSEnv) (st : Option Str) (d : Str)
    (hmem : d ∉ LoadLocalDomains st) :
    RegisterLocalDomain env st d =
      (some (SaveLocalDomains (LoadLocalDomains st ++ [d])),
       DNSEvent.save (SaveLocalDomains (LoadLocalDomains st ++ [d])) ::
         (UpdateDnsmasqConfig env (some (SaveLocalDomains (LoadLocalDomains st ++ [d])))).2 ++
         (if (LoadLocalDomains st).isEmpty && !env.systemDNSOk then [DNSEvent.setupDNS]
          else []),
       (LoadLocalDomains st).isEmpty && !env.systemDNSOk && env.setupFails) := by
  simp [RegisterLocalDomain, hmem]

/-- Claim C1 (amended): for a well-formed domain and a reachable
registry state, registering twice leaves exactly one occurrence of the
domain; the first call invokes SetupDNS exactly once when the set was
empty and the system-DNS probe fails, and zero times otherwise; the
second call is a complete no-op emitting no events. -/
theorem claim_C1_amended (env : DNSEnv) (R : List Str) (st : Option Str) (d : Str)
    (hd : wfDomain d) (hst : GoodState R st) :
    (LoadLocalDomains (RegisterLocalDomain env (RegisterLocalDomain env st d).1 d).1).count d = 1 ∧
    ((RegisterLocalDomain env st d).2.1.count DNSEvent.setupDNS =
      if LoadLocalDomains st = [] ∧ env.systemDNSOk = false then 1 else 0) ∧
    (RegisterLocalDomain env (RegisterLocalDomain env st d).1 d).2.1 = [] := by
  obtain ⟨l, hl, hload⟩ := goodState_load R st hst
  by_cases hmem : d ∈ LoadLocalDomains st
  · have h1 : RegisterLocalDomain env st d = (st, [], false) := register_noop env st d hmem
    have hne : LoadLocalDomains st ≠ [] := fun he => List.not_mem_nil d (he ▸ hmem)
    have hcount : (LoadLocalDomains st).count d = 1 := by
      rw [hload]
      exact nodup_count_eq_one _ d (sortDedup_nodup l) (hload ▸ hmem)
    refine ⟨?_, ?_, ?_⟩
    · rw [h1]
      show (LoadLocalDomains (RegisterLocalDomain env st d).1).count d = 1
      rw [h1]
      exact hcount
    · rw [h1]
      simp [hne]
    · rw [h1]
      show (RegisterLocalDomain env st d).2.1 = []
      rw [h1]
  · have h1 := register_fresh env st d hmem
    have hwf1 : ∀ x ∈ LoadLocalDomains st ++ [d], wfDomain x := by
      intro x hx
      rcases List.mem_append.mp hx with hx | hx
      · rw [hload] at hx
        exact (hl x ((mem_sortDedup x l).mp hx)).1
      · rw [List.mem_singleton.mp hx]; exact hd
    have hload1 : LoadLocalDomains (RegisterLocalDomain env st d).1 =
        sortDedup (LoadLocalDomains st ++ [d]) := by
      rw [h1]
      exact load_save _ hwf1
    have hmem1 : d ∈ LoadLocalDomains (RegisterLocalDomain env st d).1 := by
      rw [hload1]
      exact (mem_sortDedup d _).mpr (List.mem_append.mpr (Or.inr (List.mem_singleton.mpr rfl)))
    have h2 : RegisterLocalDomain env (RegisterLocalDomain env st d).1 d =
        ((RegisterLocalDomain env st d).1, [], false) :=
      register_noop env (RegisterLocalDomain env st d).1 d hmem1
    refine ⟨?_, ?_, by rw [h2]⟩
    · rw [h2, hload1]
      exact nodup_count_eq_one _ d (sortDedup_nodup _) (hload1 ▸ hmem1)
    · rw [h1]
      cases hok : env.systemDNSOk <;> cases hdr : env.dnsRunning <;>
        rcases he : LoadLocalDomains st with _ | ⟨x, xs⟩ <;>
        simp [UpdateDnsmasqConfig, List.count_cons, List.count_append, hok, hdr, he]

theorem claim_C1_amended_witness :
    (LoadLocalDomains
      (RegisterLocalDomain ⟨false, false, false, false⟩
        (RegisterLocalDomain ⟨false, false, false, false⟩ none (str "a.test")).1
        (str "a.test")).1).count (str "a.test") = 1 ∧
    ((RegisterLocalDomain ⟨false, false, false, false⟩ none (str "a.test")).2.1.count
      DNSEvent.setupDNS =
      if LoadLocalDomains none = [] ∧ (false : Bool) = false then 1 else 0) ∧
    (RegisterLocalDomain ⟨false, false, false, false⟩
      (RegisterLocalDomain ⟨false, false, false, false⟩ none (str "a.test")).1
      (str "a.test")).2.1 = [] :=
  claim_C1_amended ⟨false, false, false, false⟩ [] none (str "a.test") (by decide)
    (Or.inl rfl)

/-- Claim C3 (counterexample to the claim as stated): the round trip
does not hold for every list of strings — a saved entry beginning with
the comment marker is skipped on load, so save-then-load of ["#x"]
yields the empty list rather than its sorted, duplicate-free version. -/
theorem claim_C3_counterexample :
    LoadLocalDomains (some (SaveLocalDomains [str "#x"])) ≠ sortDedup [str "#x"] := by
  decide

/-- Claim C3 (amended): for every list D of well-formed domain entries
(non-blank, trim-stable, newline-free, not beginning with the comment
marker), save followed by load yields exactly the sorted,
duplicate-free version of D — a list that is sorted in byte order,
without duplicates, and with the same membership as D. -/
theorem claim_C3_amended (D : List Str) (h : ∀ x ∈ D, wfDomain x) :
    LoadLocalDomains (some (SaveLocalDomains D)) = sortDedup D ∧
    List.Sorted LexLe (sortDedup D) ∧ (sortDedup D).Nodup ∧
    (∀ x, x ∈ sortDedup D ↔ x ∈ D) :=
  ⟨load_save D h, sortDedup_sorted D, sortDedup_nodup D, fun x => mem_sortDedup x D⟩

theorem claim_C3_amended_witness :
    LoadLocalDomains
      (some (SaveLocalDomains [str "b.test", str "a.test", str "b.test"])) =
      sortDedup [str "b.test", str "a.test", str "b.test"] :=
  (claim_C3_amended [str "b.test", str "a.test", str "b.test"] (by decide)).1

/-- Claim C9 (counterexample to the claim as stated): the registry code
never lower-cases; registering "A.test" persists the entry verbatim,
so the file can contain an entry that is not a lower-cased string. -/
theorem claim_C9_counterexample :
    LoadLocalDomains (applyOps ⟨true, false, false, false⟩ none [DNSOp.reg (str "A.test")]) =
      [str "A.test"] ∧
    (str "A.test").map Char.toLower ≠ str "A.test" := by
  constructor
  · decide
  · decide

/-- Claim C9 (amended): after every sequence of register/unregister
operations with well-formed domain arguments, starting from an absent
registry, the persisted entries are sorted in byte order, duplicate
free, each one a verbatim (case-preserving) copy of a domain passed to
a register call, and the file is their newline-delimited join with a
trailing newline when non-empty. -/
theorem claim_C9_amended (env : DNSEnv) (ops : List DNSOp)
    (hops : ∀ op ∈ ops, wfDomain op.domain) :
    List.Sorted LexLe (LoadLocalDomains (applyOps env none ops)) ∧
    (LoadLocalDomains (applyOps env none ops)).Nodup ∧
    (∀ e ∈ LoadLocalDomains (applyOps env none ops), e ∈ regDomains ops) ∧
    (applyOps env none ops = none ∨
      applyOps env none ops =
        some (joinNL (LoadLocalDomains (applyOps env none ops)) ++
          (if (LoadLocalDomains (applyOps env none ops)).isEmpty then [] else ['\n']))) := by
  have hgood : GoodState (regDomains ops) (applyOps env none ops) :=
    goodState_applyOps (regDomains ops) env ops hops (fun d hd => hd) none (Or.inl rfl)
  obtain ⟨l, hl, hload⟩ := goodState_load (regDomains ops) _ hgood
  refine ⟨hload ▸ sortDedup_sorted l, hload ▸ sortDedup_nodup l, ?_, ?_⟩
  · intro e he
    rw [hload] at he
    exact (hl e ((mem_sortDedup e l).mp he)).2
  · rcases hgood with hnone | ⟨l', hl', heq⟩
    · exact Or.inl hnone
    · refine Or.inr ?_
      have hload' : LoadLocalDomains (applyOps env none ops) = sortDedup l' := by
        rw [heq]; exact load_save l' (fun x hx => (hl' x hx).1)
      rw [hload', heq]
      rfl

theorem claim_C9_amended_witness :
    List.Sorted LexLe
      (LoadLocalDomains
        (applyOps ⟨false, false, false, false⟩ none
          [DNSOp.reg (str "b.test"), DNSOp.reg (str "a.test"), DNSOp.unreg (str "b.test")])) :=
  (claim_C9_amended ⟨false, false, false, false⟩
    [DNSOp.reg (str "b.test"), DNSOp.reg (str "a.test"), DNSOp.unreg (str "b.test")]
    (by decide)).1

end Srv
